import Mathlib

/-!
Shallow embedding of the structural core of the `pyss` statechart engine
(`statemachine.py`): the state/transition data model, the `StateMachine`
registry with its registration operations, the hierarchy algorithms
(`ancestors_for`, `descendants_for`, `depth_of`, `least_common_ancestor`,
`leaf_for`), and the structural validator `valid`.

Modelling conventions:
* Python dicts become insertion-ordered association lists with in-place
  update on existing keys (`dictInsert`) and first-match lookup (`dictGet?`).
* A failed dict lookup (Python `KeyError`) and a missing-attribute call
  (Python `AttributeError`, e.g. `add_child` on a non-composite state) are
  surfaced as explicit error values; operations that mutate before raising
  return the partially-mutated machine together with the error.
* Python truthiness of an optional string (`while parent:`, `if initial and`)
  is `truthy`: `None` and the empty string are falsy.
* The unbounded `while` loops of `ancestors_for` and `descendants_for` take a
  fuel argument and return `none` when the fuel runs out (or on `KeyError`);
  on well-founded inputs a large enough fuel yields the Python result.
-/

/-- Python truthiness of an optional string: `None` and `""` are falsy. -/
def truthy : Option String → Bool
  | none => false
  | some s => s ≠ ""

/-- Lookup in an insertion-ordered dict (association list): first match. -/
def dictGet? {α : Type} (k : String) : List (String × α) → Option α
  | [] => none
  | (k', v) :: rest => if k' = k then some v else dictGet? k rest

/-- Python dict assignment `d[k] = v`: update in place when the key exists,
append otherwise. -/
def dictInsert {α : Type} (k : String) (v : α) : List (String × α) → List (String × α)
  | [] => [(k, v)]
  | (k', v') :: rest => if k' = k then (k, v) :: rest else (k', v') :: dictInsert k v rest

/-- `Transition(from_state, to_state, event, guard, action)`; the event is
kept by name only (its `data` plays no role here). -/
structure Transition where
  from_state : String
  to_state : Option String
  event : Option String
  guard : Option String
  action : Option String
deriving DecidableEq, Repr

/-- `transition.internal`: true iff `to_state` is `None`. -/
def Transition.internal (t : Transition) : Bool := t.to_state.isNone

/-- `transition.eventless`: true iff `event` is `None`. -/
def Transition.eventless (t : Transition) : Bool := t.event.isNone

/-- The five state variants as a tagged union, each carrying the fields its
Python mixins give it (`StateMixin`, `TransitionStateMixin`,
`ActionStateMixin`, `CompositeStateMixin`).  `HistoryState.memory` starts as
`[initial]`. -/
inductive State where
  | basic (name : String) (transitions : List Transition)
      (on_entry on_exit : Option String)
  | compound (name : String) (initial : String) (transitions : List Transition)
      (on_entry on_exit : Option String) (children : List String)
  | orthogonal (name : String) (transitions : List Transition)
      (on_entry on_exit : Option String) (children : List String)
  | history (name : String) (memory : List (Option String))
      (initial : Option String) (deep : Bool)
  | final (name : String) (on_entry on_exit : Option String)
deriving DecidableEq, Repr

namespace State

/-- `state.name` (from `StateMixin`). -/
def name : State → String
  | basic n _ _ _ => n
  | compound n _ _ _ _ _ => n
  | orthogonal n _ _ _ _ => n
  | history n _ _ _ => n
  | final n _ _ => n

/-- `isinstance(state, CompositeStateMixin)`: the child list when the state
has one (Compound, Orthogonal), `none` otherwise. -/
def children? : State → Option (List String)
  | compound _ _ _ _ _ cs => some cs
  | orthogonal _ _ _ _ cs => some cs
  | _ => none

/-- `isinstance(state, CompoundState)`. -/
def isCompound : State → Bool
  | compound _ _ _ _ _ _ => true
  | _ => false

/-- `isinstance(state, HistoryState)`. -/
def isHistory : State → Bool
  | history _ _ _ _ => true
  | _ => false

/-- The `initial` field of a Compound state. -/
def compoundInitial? : State → Option String
  | compound _ i _ _ _ _ => some i
  | _ => none

/-- The `initial` field of a History state (may itself be `None`). -/
def historyInitial? : State → Option String
  | history _ _ i _ => i
  | _ => none

/-- `CompositeStateMixin.add_child`: appends to the child list; a state
without the mixin has no such method (Python `AttributeError`), modelled by
`none`. -/
def add_child (st : State) (child : String) : Option State :=
  match st with
  | compound n i ts en ex cs => some (compound n i ts en ex (cs ++ [child]))
  | orthogonal n ts en ex cs => some (orthogonal n ts en ex (cs ++ [child]))
  | _ => none

/-- `TransitionStateMixin.add_transition`: appends to the transition list; a
state without the mixin (History, Final) has no such method, modelled by
`none`. -/
def add_transition (st : State) (t : Transition) : Option State :=
  match st with
  | basic n ts en ex => some (basic n (ts ++ [t]) en ex)
  | compound n i ts en ex cs => some (compound n i (ts ++ [t]) en ex cs)
  | orthogonal n ts en ex cs => some (orthogonal n (ts ++ [t]) en ex cs)
  | _ => none

end State

/-- Runtime errors the Python registration code can raise. -/
inductive RegError where
  | keyError
  | attributeError
deriving DecidableEq, Repr

/-- The `StateMachine` registry: `states` and `parent` are insertion-ordered
dicts, `transitions` the global transition list, `children` the top-level
child names.  A `parent` entry of `none` is Python's stored `None`. -/
structure StateMachine where
  name : String
  initial : String
  on_entry : Option String
  states : List (String × State)
  transitions : List Transition
  parent : List (String × Option String)
  children : List String
deriving DecidableEq, Repr

namespace StateMachine

/-- `register_state(state, parent)`: sets `states[state.name]` and
`parent[state.name]`, then adds the child link on the parent state when it is
registered (`AttributeError` when that state is not composite), else appends
to the machine's top-level `children`.  The returned machine reflects every
mutation performed before a raise. -/
def register_state (m : StateMachine) (st : State) (parent : Option String) :
    StateMachine × Option RegError :=
  let m1 : StateMachine :=
    { m with states := dictInsert st.name st m.states,
             parent := dictInsert st.name parent m.parent }
  match parent with
  | none => ({ m1 with children := m1.children ++ [st.name] }, none)
  | some pname =>
    match dictGet? pname m1.states with
    | none => ({ m1 with children := m1.children ++ [st.name] }, none)
    | some pstate =>
      match pstate.add_child st.name with
      | some pstate' => ({ m1 with states := dictInsert pname pstate' m1.states }, none)
      | none => (m1, some .attributeError)

/-- `register_transition(transition)`: appends to `transitions`, then appends
on the source state (`KeyError` when `from_state` is unregistered,
`AttributeError` when it holds no transitions); mutations before a raise are
kept. -/
def register_transition (m : StateMachine) (t : Transition) :
    StateMachine × Option RegError :=
  let m1 : StateMachine := { m with transitions := m.transitions ++ [t] }
  match dictGet? t.from_state m1.states with
  | none => (m1, some .keyError)
  | some st =>
    match st.add_transition t with
    | some st' => ({ m1 with states := dictInsert t.from_state st' m1.states }, none)
    | none => (m1, some .attributeError)

/-- The `while parent:` loop of `ancestors_for`, on the current parent value;
`none` on fuel exhaustion (the Python loop would still be running) or on a
`KeyError`. -/
def ancestorsAux (m : StateMachine) : Option String → Nat → Option (List String)
  | p, fuel =>
    if truthy p then
      match fuel, p with
      | 0, _ => none
      | _ + 1, none => none
      | fuel' + 1, some pname =>
        match dictGet? pname m.parent with
        | none => none
        | some p' => (ancestorsAux m p' fuel').map (pname :: ·)
    else some []

/-- `ancestors_for(state)`: ancestors in decreasing depth, starting from
`parent[state]` (`KeyError` when `state` is unregistered). -/
def ancestors_for (m : StateMachine) (state : String) (fuel : Nat) :
    Option (List String) :=
  match dictGet? state m.parent with
  | none => none
  | some p => ancestorsAux m p fuel

/-- `depth_of(state)`: `0` for `None`, else `len(ancestors_for(state)) + 1`. -/
def depth_of (m : StateMachine) (state : Option String) (fuel : Nat) : Option Nat :=
  match state with
  | none => some 0
  | some s => (ancestors_for m s fuel).map (fun l => l.length + 1)

/-- `least_common_ancestor(s1, s2)`: first entry of `s1`'s ancestor chain
present in `s2`'s; the inner `Option` is the Python result (`None` when the
loop falls through), the outer one failure of either chain computation. -/
def least_common_ancestor (m : StateMachine) (s1 s2 : String) (fuel : Nat) :
    Option (Option String) :=
  match ancestors_for m s1 fuel, ancestors_for m s2 fuel with
  | some l1, some l2 => some (l1.find? (fun s => s ∈ l2))
  | _, _ => none

/-- The worklist loop of `descendants_for`: pop the front, push and record the
children of composite states. -/
def descendantsAux (m : StateMachine) :
    List String → List String → Nat → Option (List String)
  | [], acc, _ => some acc
  | _ :: _, _, 0 => none
  | s :: rest, acc, fuel + 1 =>
    match dictGet? s m.states with
    | none => none
    | some st =>
      match st.children? with
      | some cs => descendantsAux m (rest ++ cs) (acc ++ cs) fuel
      | none => descendantsAux m rest acc fuel

/-- `descendants_for(state)`: breadth-first descendants, children before
grandchildren. -/
def descendants_for (m : StateMachine) (state : String) (fuel : Nat) :
    Option (List String) :=
  descendantsAux m [state] [] fuel

/-- The loop body of `leaf_for`: keep a state iff none of its descendants is
in the input list `all`. -/
def leafForAux (m : StateMachine) (all : List String) (fuel : Nat) :
    List String → Option (List String)
  | [] => some []
  | s :: rest =>
    match descendants_for m s fuel with
    | none => none
    | some ds =>
      match leafForAux m all fuel rest with
      | none => none
      | some tail => if ds.any (fun d => d ∈ all) then some tail else some (s :: tail)

/-- `leaf_for(states)`: the input states that have no descendant in the input
list, in input order. -/
def leaf_for (m : StateMachine) (states : List String) (fuel : Nat) :
    Option (List String) :=
  leafForAux m states fuel states

end StateMachine

/-- The distinct failures `valid` can raise, one per numbered check plus the
`KeyError` a dict lookup inside a check can raise. -/
inductive VError where
  | unknownStateRef (t : Transition)
  | internalEventless (t : Transition)
  | historyParent (name : String)
  | historyMemory (name : String)
  | emptyComposite (name : String)
  | invalidInitial (name : String)
  | keyError
deriving DecidableEq, Repr

namespace StateMachine

/-- `transition.to_state in self.states` (evaluated only when `to_state` is
truthy). -/
def toStateRegistered (m : StateMachine) (t : Transition) : Bool :=
  match t.to_state with
  | some s => (dictGet? s m.states).isSome
  | none => false

/-- The per-transition checks of `valid`: C1 (both endpoints registered,
`to_state` only when truthy), then C6 (no internal eventless guardless
transition).  An `Event` object is always truthy, a guard string is falsy
when empty. -/
def checkTransition (m : StateMachine) (t : Transition) : Option VError :=
  if !((dictGet? t.from_state m.states).isSome &&
        (!truthy t.to_state || toStateRegistered m t)) then
    some (.unknownStateRef t)
  else if t.event.isNone && !truthy t.guard && !truthy t.to_state then
    some (.internalEventless t)
  else
    none

/-- `self.states[self.parent[name]]` given the already-fetched parent value:
`None` is not a key, so a stored `None` raises `KeyError`. -/
def parentStateOf (m : StateMachine) (pval : Option String) : Option State :=
  match pval with
  | none => none
  | some p => dictGet? p m.states

/-- The History-state checks of `valid`: C2 (parent must be a Compound
state), then C3 (a truthy initial memory must have the same recorded parent
as the history state). -/
def checkHistoryState (m : StateMachine) (name : String) (ini : Option String) :
    Option VError :=
  match dictGet? name m.parent with
  | none => some .keyError
  | some pval =>
    match parentStateOf m pval with
    | none => some .keyError
    | some pst =>
      if !pst.isCompound then some (.historyParent name)
      else
        match ini with
        | some i =>
          if i ≠ "" then
            match dictGet? i m.parent with
            | none => some .keyError
            | some ip => if ip = pval then none else some (.historyMemory name)
          else none
        | none => none

/-- The C4 check of `valid` on a Compound state: when the state's own parent
entry is truthy, the recorded parent of its `initial` must be the state
itself. -/
def checkCompoundInitial (m : StateMachine) (name : String) (ini : String) :
    Option VError :=
  match dictGet? name m.parent with
  | none => some .keyError
  | some pval =>
    if truthy pval then
      match dictGet? ini m.parent with
      | none => some .keyError
      | some ip => if ip = some name then none else some (.invalidInitial name)
    else none

/-- `isinstance(state, HistoryState)` branch of the state loop. -/
def checkHistoryPart (m : StateMachine) (name : String) (st : State) : Option VError :=
  if st.isHistory then checkHistoryState m name st.historyInitial? else none

/-- `isinstance(state, CompositeStateMixin)` branch (C5). -/
def checkCompositePart (name : String) (st : State) : Option VError :=
  match st.children? with
  | some cs => if cs.length ≤ 0 then some (.emptyComposite name) else none
  | none => none

/-- `isinstance(state, CompoundState)` branch (C4). -/
def checkCompoundPart (m : StateMachine) (name : String) (st : State) : Option VError :=
  match st.compoundInitial? with
  | some ini => checkCompoundInitial m name ini
  | none => none

/-- One iteration of `valid`'s state loop: the three branches run in source
order, the first raise wins. -/
def checkState (m : StateMachine) (name : String) (st : State) : Option VError :=
  match checkHistoryPart m name st with
  | some e => some e
  | none =>
    match checkCompositePart name st with
    | some e => some e
    | none => checkCompoundPart m name st

/-- Fail-fast iteration: the first raised error of the list, if any. -/
def firstErr {α : Type} (f : α → Option VError) : List α → Option VError
  | [] => none
  | x :: xs =>
    match f x with
    | some e => some e
    | none => firstErr f xs

/-- The `valid` property: all transitions checked first, then all states in
registration order; `True` when nothing raises. -/
def valid (m : StateMachine) : Except VError Bool :=
  match firstErr (checkTransition m) m.transitions with
  | some e => .error e
  | none =>
    match firstErr (fun p => checkState m p.1 p.2) m.states with
    | some e => .error e
    | none => .ok true

/-- The `n`-fold parent of a state: iterated `parent` lookup, `none` on a
missing entry or a stored `None`. -/
def parentN (m : StateMachine) : Nat → String → Option String
  | 0, s => some s
  | n + 1, s =>
    match parentN m n s with
    | none => none
    | some t =>
      match dictGet? t m.parent with
      | none => none
      | some p => p

/-- `IsParentChain m s l`: the `parent` entries of `m`, followed from `s`,
are exactly the list `l` and end at a falsy value (a top-level state).  This
is the precondition under which the Python `while parent:` loop terminates
without a `KeyError`. -/
inductive IsParentChain (m : StateMachine) : String → List String → Prop where
  | stop {s : String} {p : Option String} :
      dictGet? s m.parent = some p → truthy p = false → IsParentChain m s []
  | step {s p : String} {l : List String} :
      dictGet? s m.parent = some (some p) → p ≠ "" →
      IsParentChain m p l → IsParentChain m s (p :: l)

/-- Spec-side predicate for `leaf_for`: the state has no *other* input state
among its descendants. -/
def hasNoOtherInputDescendant (m : StateMachine) (states : List String)
    (fuel : Nat) (s : String) : Bool :=
  match descendants_for m s fuel with
  | none => false
  | some ds => ds.all (fun d => !(decide (d ∈ states)) || decide (d = s))

/-- Every listed state has a defined descendant set not containing itself
(the tree-shape precondition of the `leaf_for` claim). -/
def descendantsDefinedNoSelf (m : StateMachine) (states : List String)
    (fuel : Nat) : Bool :=
  states.all (fun s =>
    match descendants_for m s fuel with
    | some ds => decide (s ∉ ds)
    | none => false)

/-- All per-transition checks of `valid` pass. -/
def transitionsAllPass (m : StateMachine) : Bool :=
  m.transitions.all (fun p => (checkTransition m p).isNone)

/-- All History-state checks of `valid` pass. -/
def historyChecksAllPass (m : StateMachine) : Bool :=
  m.states.all (fun p => (checkHistoryPart m p.1 p.2).isNone)

/-- All C5 checks of `valid` pass. -/
def compositeChecksAllPass (m : StateMachine) : Bool :=
  m.states.all (fun p => (checkCompositePart p.1 p.2).isNone)

/-- Every Compound state and every Compound `initial` has a `parent` entry
(no `KeyError` inside the C4 check). -/
def compoundEntriesPresent (m : StateMachine) : Bool :=
  m.states.all (fun p =>
    match p.2.compoundInitial? with
    | some ini => (dictGet? p.1 m.parent).isSome && (dictGet? ini m.parent).isSome
    | none => true)

/-- The parent/children backlink invariant of the spec, at each Compound
state's own `initial`: `parent[initial]` points back to the state exactly
when `initial` is one of its direct children. -/
def consistentInitialBacklinks (m : StateMachine) : Bool :=
  m.states.all (fun p =>
    match p.2.compoundInitial?, p.2.children? with
    | some ini, some cs =>
      decide (dictGet? ini m.parent = some (some p.1)) == decide (ini ∈ cs)
    | _, _ => true)

/-- The state's `parent` entry exists and is truthy (the state "has a
parent"). -/
def truthyParentEntry (m : StateMachine) (name : String) : Bool :=
  match dictGet? name m.parent with
  | some pv => truthy pv
  | none => false

/-- Spec-side condition of the C4 claim at one registered state: a Compound
state that has a parent whose `initial` is not one of its own direct
children. -/
def c4pred (m : StateMachine) (p : String × State) : Bool :=
  match p.2.compoundInitial?, p.2.children? with
  | some ini, some cs => truthyParentEntry m p.1 && decide (ini ∉ cs)
  | _, _ => false

/-- Spec-side condition of the C4 claim: some Compound state that has a
parent has an `initial` that is not one of its own direct children. -/
def c4Violation (m : StateMachine) : Bool :=
  m.states.any (c4pred m)

/-- Whether a validation outcome is the invalid-initial-state (C4) error. -/
def raisesInvalidInitial (r : Except VError Bool) : Bool :=
  match r with
  | .error (.invalidInitial _) => true
  | _ => false

end StateMachine

/-- The outgoing-transition list of a transition-holding state. -/
def State.transitions? : State → Option (List Transition)
  | .basic _ ts _ _ => some ts
  | .compound _ _ ts _ _ _ => some ts
  | .orthogonal _ ts _ _ _ => some ts
  | _ => none

/-- A machine with nothing registered yet. -/
def emptyM : StateMachine :=
  { name := "m", initial := "root", on_entry := none,
    states := [], transitions := [], parent := [], children := [] }

/-- A three-level machine `root ⊃ A ⊃ B` used as concrete witness input. -/
def exM : StateMachine :=
  { name := "ex", initial := "root", on_entry := none,
    states := [("root", .compound "root" "A" [] none none ["A"]),
               ("A", .compound "A" "B" [] none none ["B"]),
               ("B", .basic "B" [] none none)],
    transitions := [],
    parent := [("root", none), ("A", some "root"), ("B", some "A")],
    children := ["root"] }

def rootC9 : State := .compound "root" "X" [] none none []

def xC9 : State := .compound "X" "c" [] none none []

def cC9 : State := .basic "c" [] none none

/-- A machine reached through `register_state` alone: `c` is first registered
under `X`, then re-registered under `root`, leaving `X.children = ["c"]`
while `parent["c"] = "root"`. -/
def mC9 : StateMachine :=
  ((((emptyM.register_state rootC9 none).1.register_state xC9
      (some "root")).1.register_state cC9 (some "X")).1.register_state cC9
      (some "root")).1

/-- A consistent machine whose compound `B` has an `initial` (`A`) that is
not one of its children. -/
def mW : StateMachine :=
  { name := "w", initial := "root", on_entry := none,
    states := [("root", .compound "root" "A" [] none none ["A", "B"]),
               ("A", .basic "A" [] none none),
               ("B", .compound "B" "A" [] none none ["D"]),
               ("D", .basic "D" [] none none)],
    transitions := [],
    parent := [("root", none), ("A", some "root"), ("B", some "root"), ("D", some "B")],
    children := ["root"] }

def aBasic : State := .basic "A" [] none none

def aBasic2 : State := .basic "A" [] (some "print(1)") none

def bBasic : State := .basic "B" [] none none

def cBasic : State := .basic "C" [] none none

/-- A machine holding just the Basic state `A` at top level. -/
def mDup : StateMachine := (emptyM.register_state aBasic none).1

def tAB : Transition :=
  { from_state := "A", to_state := some "B", event := some "go",
    guard := none, action := none }

def tZ : Transition :=
  { from_state := "Z", to_state := none, event := some "go",
    guard := none, action := none }

/-! ## Dictionary lemmas -/

theorem dictGet?_insert_self {α : Type} (k : String) (v : α) (d : List (String × α)) :
    dictGet? k (dictInsert k v d) = some v := by
  induction d with
  | nil => simp [dictInsert, dictGet?]
  | cons kv rest ih =>
    by_cases h : kv.1 = k
    · simp [dictInsert, dictGet?, h]
    · simp [dictInsert, dictGet?, h, ih]

theorem dictGet?_insert_ne {α : Type} {k k' : String} (v : α) (d : List (String × α))
    (h : k' ≠ k) : dictGet? k (dictInsert k' v d) = dictGet? k d := by
  induction d with
  | nil => simp [dictInsert, dictGet?, h]
  | cons kv rest ih =>
    by_cases hk : kv.1 = k'
    · simp [dictInsert, dictGet?, hk, h]
    · simp only [dictInsert, hk, if_neg hk]
      by_cases hk2 : kv.1 = k
      · simp [dictGet?, hk2]
      · simp [dictGet?, hk2, ih]

/-! ## Fail-fast iteration lemmas -/

namespace StateMachine

theorem firstErr_eq_none {α : Type} {f : α → Option VError} {l : List α} :
    firstErr f l = none ↔ ∀ x ∈ l, f x = none := by
  induction l with
  | nil => simp [firstErr]
  | cons a l ih =>
    cases hfa : f a with
    | some e => simp [firstErr, hfa]
    | none => simp [firstErr, hfa, ih]

theorem firstErr_eq_some {α : Type} {f : α → Option VError} {l : List α} {e : VError}
    (h : firstErr f l = some e) : ∃ x ∈ l, f x = some e := by
  induction l with
  | nil => simp [firstErr] at h
  | cons a l ih =>
    cases hfa : f a with
    | some e' =>
      rw [firstErr, hfa] at h
      exact ⟨a, List.mem_cons_self a l, hfa.trans h⟩
    | none =>
      rw [firstErr, hfa] at h
      obtain ⟨x, hx, hfx⟩ := ih h
      exact ⟨x, List.mem_cons_of_mem a hx, hfx⟩

end StateMachine

/-! ## `List.find?` decomposition -/

theorem find?_eq_some_split {α : Type} {p : α → Bool} {l : List α} {x : α}
    (h : l.find? p = some x) :
    ∃ as bs, l = as ++ x :: bs ∧ p x = true ∧ ∀ a ∈ as, p a = false := by
  induction l with
  | nil => simp [List.find?] at h
  | cons a l ih =>
    cases hpa : p a with
    | true =>
      rw [List.find?_cons_of_pos l hpa] at h
      obtain rfl : a = x := by injection h
      exact ⟨[], l, rfl, hpa, by simp⟩
    | false =>
      rw [List.find?_cons_of_neg l (by simp [hpa])] at h
      obtain ⟨as, bs, rfl, hx, hall⟩ := ih h
      refine ⟨a :: as, bs, rfl, hx, ?_⟩
      intro b hb
      rcases List.mem_cons.1 hb with rfl | hb
      · exact hpa
      · exact hall b hb

/-! ## Parent-chain lemmas -/

namespace StateMachine

theorem IsParentChain.parent_isSome {m : StateMachine} {s : String} {l : List String}
    (h : IsParentChain m s l) : ∃ q, dictGet? s m.parent = some q := by
  cases h with
  | stop hget _ => exact ⟨_, hget⟩
  | step hget _ _ => exact ⟨_, hget⟩

theorem IsParentChain.unique {m : StateMachine} {s : String} {l1 l2 : List String}
    (h1 : IsParentChain m s l1) (h2 : IsParentChain m s l2) : l1 = l2 := by
  induction h1 generalizing l2 with
  | stop hget htr =>
    cases h2 with
    | stop _ _ => rfl
    | step hget2 hp2 _ =>
      rw [hget] at hget2
      injection hget2 with he
      rw [he] at htr
      simp [truthy, hp2] at htr
  | step hget hp hch ih =>
    cases h2 with
    | stop hget2 htr2 =>
      rw [hget] at hget2
      injection hget2 with he
      rw [← he] at htr2
      simp [truthy, hp] at htr2
    | step hget2 hp2 hch2 =>
      rw [hget] at hget2
      injection hget2 with he
      injection he with he2
      subst he2
      rw [ih hch2]

theorem IsParentChain.suffix {m : StateMachine} :
    ∀ {as : List String} {s x : String} {bs : List String},
      IsParentChain m s (as ++ x :: bs) → IsParentChain m x bs := by
  intro as
  induction as with
  | nil =>
    intro s x bs h
    cases h with
    | step _ _ hch => exact hch
  | cons a as ih =>
    intro s x bs h
    cases h with
    | step _ _ hch => exact ih hch

theorem IsParentChain.not_mem {m : StateMachine} {s : String} {l : List String}
    (h : IsParentChain m s l) : s ∉ l := by
  intro hmem
  obtain ⟨as, bs, rfl⟩ := List.append_of_mem hmem
  have h2 : IsParentChain m s bs := h.suffix
  have hlen := congrArg List.length (h.unique h2)
  simp [List.length_append] at hlen
  omega

theorem ancestorsAux_falsy {m : StateMachine} {p : Option String} {fuel : Nat}
    (h : truthy p = false) : ancestorsAux m p fuel = some [] := by
  unfold ancestorsAux
  simp [h]

theorem ancestorsAux_step {m : StateMachine} {p : String} {p' : Option String} {fuel : Nat}
    (hp : p ≠ "") (hget : dictGet? p m.parent = some p') :
    ancestorsAux m (some p) (fuel + 1) = (ancestorsAux m p' fuel).map (p :: ·) := by
  conv_lhs => rw [ancestorsAux]
  simp [truthy, hp, hget]

theorem ancestors_for_def {m : StateMachine} {s : String} {p : Option String} {fuel : Nat}
    (hget : dictGet? s m.parent = some p) :
    ancestors_for m s fuel = ancestorsAux m p fuel := by
  rw [ancestors_for, hget]

theorem ancestors_for_of_chain {m : StateMachine} {s : String} {l : List String} {fuel : Nat}
    (h : IsParentChain m s l) (hf : l.length ≤ fuel) :
    ancestors_for m s fuel = some l := by
  induction h generalizing fuel with
  | stop hget htr =>
    rw [ancestors_for_def hget, ancestorsAux_falsy htr]
  | step hget hp hch ih =>
    rw [ancestors_for_def hget]
    cases fuel with
    | zero => simp at hf
    | succ fuel' =>
      obtain ⟨q, hq⟩ := hch.parent_isSome
      rw [ancestorsAux_step hp hq]
      have hih := ih (Nat.le_of_succ_le_succ hf)
      rw [ancestors_for_def hq] at hih
      rw [hih]
      rfl

end StateMachine

namespace StateMachine

theorem parentN_shift {m : StateMachine} {s p : String}
    (hget : dictGet? s m.parent = some (some p)) :
    ∀ n, parentN m (n + 1) s = parentN m n p := by
  intro n
  induction n with
  | zero => simp [parentN, hget]
  | succ k ih =>
    have e1 : parentN m (k + 1 + 1) s = (match parentN m (k + 1) s with
      | none => none
      | some t => match dictGet? t m.parent with | none => none | some q => q) := rfl
    have e2 : parentN m (k + 1) p = (match parentN m k p with
      | none => none
      | some t => match dictGet? t m.parent with | none => none | some q => q) := rfl
    rw [e1, e2, ih]

theorem chain_get {m : StateMachine} {s : String} {l : List String}
    (h : IsParentChain m s l) :
    ∀ i (hi : i < l.length), parentN m (i + 1) s = some (l.get ⟨i, hi⟩) := by
  induction h with
  | stop hget htr =>
    intro i hi
    simp at hi
  | step hget hp hch ih =>
    intro i hi
    cases i with
    | zero => simp [parentN, hget]
    | succ j =>
      rw [parentN_shift hget (j + 1), ih j (by simpa using hi)]
      rfl

theorem chain_getLast {m : StateMachine} {s : String} {l : List String}
    (h : IsParentChain m s l) :
    ∀ x, l.getLast? = some x → ∃ p, dictGet? x m.parent = some p ∧ truthy p = false := by
  induction h with
  | stop _ _ =>
    intro x hx
    simp at hx
  | step hget hp hch ih =>
    intro x hx
    rename_i s' p' l'
    cases l' with
    | nil =>
      rw [List.getLast?_singleton] at hx
      injection hx with he
      subst he
      cases hch with
      | stop hg ht => exact ⟨_, hg, ht⟩
    | cons b l'' =>
      rw [List.getLast?_cons_cons] at hx
      exact ih x hx

theorem least_common_ancestor_eq {m : StateMachine} {s1 s2 : String}
    {l1 l2 : List String} {fuel : Nat}
    (h1 : IsParentChain m s1 l1) (h2 : IsParentChain m s2 l2)
    (hf1 : l1.length ≤ fuel) (hf2 : l2.length ≤ fuel) :
    least_common_ancestor m s1 s2 fuel = some (l1.find? (fun a => a ∈ l2)) := by
  unfold least_common_ancestor
  rw [ancestors_for_of_chain h1 hf1, ancestors_for_of_chain h2 hf2]

theorem find?_chain_symm {m : StateMachine} {s1 s2 : String} {l1 l2 : List String}
    (h1 : IsParentChain m s1 l1) (h2 : IsParentChain m s2 l2) :
    l1.find? (fun a => a ∈ l2) = l2.find? (fun a => a ∈ l1) := by
  cases hf1 : l1.find? (fun a => a ∈ l2) with
  | none =>
    rw [List.find?_eq_none] at hf1
    cases hf2 : l2.find? (fun a => a ∈ l1) with
    | none => rfl
    | some y =>
      have hy2 : y ∈ l2 := List.mem_of_find?_eq_some hf2
      have hy1 : y ∈ l1 := by simpa using List.find?_some hf2
      exact absurd (by simpa using hy2) (by simpa using hf1 y hy1)
  | some x =>
    obtain ⟨as, bs, hl1, hx2b, has⟩ := find?_eq_some_split hf1
    have hx2 : x ∈ l2 := by simpa using hx2b
    have hx1 : x ∈ l1 := by
      rw [hl1]
      exact List.mem_append_right as (List.mem_cons_self x bs)
    cases hf2 : l2.find? (fun a => a ∈ l1) with
    | none =>
      rw [List.find?_eq_none] at hf2
      exact absurd (by simpa using hx1) (by simpa using hf2 x hx2)
    | some y =>
      obtain ⟨cs, ds, hl2, hy1b, hcs⟩ := find?_eq_some_split hf2
      have hy1 : y ∈ l1 := by simpa using hy1b
      have hy2 : y ∈ l2 := by
        rw [hl2]
        exact List.mem_append_right cs (List.mem_cons_self y ds)
      suffices hxy : x = y by rw [hxy]
      have hxl2 : x ∈ cs ++ y :: ds := hl2 ▸ hx2
      rcases List.mem_append.1 hxl2 with hxcs | hxyd
      · have := hcs x hxcs
        simp [hx1] at this
      · rcases List.mem_cons.1 hxyd with heq | hxds
        · exact heq
        · have hyl1 : y ∈ as ++ x :: bs := hl1 ▸ hy1
          rcases List.mem_append.1 hyl1 with hyas | hyxb
          · have := has y hyas
            simp [hy2] at this
          · rcases List.mem_cons.1 hyxb with heq | hybs
            · exact heq.symm
            · have hxbs : IsParentChain m x bs := by
                rw [hl1] at h1
                exact h1.suffix
              have hcy : IsParentChain m y ds := by
                rw [hl2] at h2
                exact h2.suffix
              obtain ⟨es, fs, hds⟩ := List.append_of_mem hxds
              have hxfs : IsParentChain m x fs :=
                (show IsParentChain m y (es ++ x :: fs) from hds ▸ hcy).suffix
              have hfb : fs = bs := hxfs.unique hxbs
              have hyds : y ∈ ds := by
                rw [hds]
                refine List.mem_append_right es (List.mem_cons_of_mem x ?_)
                rw [hfb]
                exact hybs
              exact absurd hyds hcy.not_mem

end StateMachine

open StateMachine in
/-- **C4**: for a registered state `s` whose parent chain is acyclic and ends
at a top-level state (hypothesis `IsParentChain m s l`), `ancestors_for`
terminates with any fuel at least the chain length and returns exactly the
chain of proper ancestors in root-ward order: element `i` is the
`(i+1)`-fold parent of `s`, `s` itself never occurs in the result, and the
last element is the deepest top-level ancestor (its own parent entry is
falsy). -/
theorem ancestors_for_spec {m : StateMachine} {s : String} {l : List String} {fuel : Nat}
    (h : IsParentChain m s l) (hf : l.length ≤ fuel) :
    ancestors_for m s fuel = some l ∧ s ∉ l ∧
      (∀ i (hi : i < l.length), parentN m (i + 1) s = some (l.get ⟨i, hi⟩)) ∧
      (∀ x, l.getLast? = some x → ∃ p, dictGet? x m.parent = some p ∧ truthy p = false) :=
  ⟨ancestors_for_of_chain h hf, h.not_mem, chain_get h, chain_getLast h⟩

/-- Witness for `ancestors_for_spec` on the concrete machine `exM`. -/
theorem ancestors_for_spec_witness :
    StateMachine.ancestors_for exM "B" 5 = some ["A", "root"] ∧
    ("B" : String) ∉ (["A", "root"] : List String) := by
  have hB : StateMachine.IsParentChain exM "B" ["A", "root"] :=
    @StateMachine.IsParentChain.step exM "B" "A" ["root"] (by decide) (by decide)
      (@StateMachine.IsParentChain.step exM "A" "root" [] (by decide) (by decide)
        (@StateMachine.IsParentChain.stop exM "root" none (by decide) (by decide)))
  have h := @ancestors_for_spec exM "B" ["A", "root"] 5 hB (by decide)
  exact ⟨h.1, h.2.1⟩

open StateMachine in
/-- **C3**: for a registered state with a terminating parent chain,
`depth_of(s)` is `len(ancestors_for(s)) + 1`; a root-level state (falsy
parent entry) has depth 1; `depth_of(None)` is 0. -/
theorem depth_of_spec {m : StateMachine} {s : String} {l : List String}
    {p : Option String} {fuel : Nat} :
    (IsParentChain m s l → l.length ≤ fuel →
      depth_of m (some s) fuel = some (l.length + 1)) ∧
    (dictGet? s m.parent = some p → truthy p = false →
      depth_of m (some s) fuel = some 1) ∧
    depth_of m none fuel = some 0 := by
  refine ⟨?_, ?_, rfl⟩
  · intro h hf
    show (ancestors_for m s fuel).map (fun l => l.length + 1) = some (l.length + 1)
    rw [ancestors_for_of_chain h hf]
    rfl
  · intro hget htr
    show (ancestors_for m s fuel).map (fun l => l.length + 1) = some 1
    rw [ancestors_for_of_chain (.stop hget htr) (Nat.zero_le _)]
    rfl

/-- Witness for `depth_of_spec` on `exM`: a depth-3 state, a root-level
state, and the absent state. -/
theorem depth_of_spec_witness :
    StateMachine.depth_of exM (some "B") 5 = some 3 ∧
    StateMachine.depth_of exM (some "root") 5 = some 1 ∧
    StateMachine.depth_of exM none 5 = some 0 := by
  have hB : StateMachine.IsParentChain exM "B" ["A", "root"] :=
    @StateMachine.IsParentChain.step exM "B" "A" ["root"] (by decide) (by decide)
      (@StateMachine.IsParentChain.step exM "A" "root" [] (by decide) (by decide)
        (@StateMachine.IsParentChain.stop exM "root" none (by decide) (by decide)))
  refine ⟨(@depth_of_spec exM "B" ["A", "root"] none 5).1 hB (by decide),
          (@depth_of_spec exM "root" [] none 5).2.1 (by decide) (by decide),
          (@depth_of_spec exM "root" [] none 5).2.2⟩

open StateMachine in
/-- **C1** counterexample: in `exM`, `B` is a (proper) descendant of `A` —
`A` occurs in `B`'s ancestor chain, and `B` is among `A`'s descendants — yet
`least_common_ancestor("A", "B")` returns `root`, not `A`. -/
theorem lca_descendant_cex :
    ancestors_for exM "B" 5 = some ["A", "root"] ∧
    ("A" : String) ∈ (["A", "root"] : List String) ∧
    descendants_for exM "A" 5 = some ["B"] ∧
    least_common_ancestor exM "A" "B" 5 = some (some "root") ∧
    (some (some "root") : Option (Option String)) ≠ some (some "A") := by
  exact ⟨by decide, by decide, by decide, by decide, by decide⟩

open StateMachine in
/-- **C1 (amended)**: if `s2` is a proper descendant of `s1` (`s1` occurs in
`s2`'s ancestor chain), `least_common_ancestor(s1, s2)` returns the *head* of
`s1`'s own ancestor chain — `s1`'s parent, or `None` when `s1` is top-level —
never `s1` itself. -/
theorem lca_of_descendant {m : StateMachine} {s1 s2 : String} {l1 l2 : List String}
    {fuel : Nat} (h2 : IsParentChain m s2 l2) (hmem : s1 ∈ l2)
    (h1 : IsParentChain m s1 l1) (hf1 : l1.length ≤ fuel) (hf2 : l2.length ≤ fuel) :
    least_common_ancestor m s1 s2 fuel = some l1.head? := by
  rw [least_common_ancestor_eq h1 h2 hf1 hf2]
  obtain ⟨as, bs, hl2⟩ := List.append_of_mem hmem
  have hbs : IsParentChain m s1 bs := by
    rw [hl2] at h2
    exact h2.suffix
  have hlb : l1 = bs := h1.unique hbs
  rw [← hlb] at hl2
  cases l1 with
  | nil => rfl
  | cons hd tl =>
    have hhd : hd ∈ l2 := by
      rw [hl2]
      exact List.mem_append_right as (by simp)
    rw [List.find?_cons_of_pos tl (by simpa using hhd)]
    rfl

/-- Witness for `lca_of_descendant` on `exM`: `B` is a descendant of `A`,
and the LCA is `A`'s parent `root`. -/
theorem lca_of_descendant_witness :
    StateMachine.least_common_ancestor exM "A" "B" 5 = some (some "root") := by
  have hB : StateMachine.IsParentChain exM "B" ["A", "root"] :=
    @StateMachine.IsParentChain.step exM "B" "A" ["root"] (by decide) (by decide)
      (@StateMachine.IsParentChain.step exM "A" "root" [] (by decide) (by decide)
        (@StateMachine.IsParentChain.stop exM "root" none (by decide) (by decide)))
  have hA : StateMachine.IsParentChain exM "A" ["root"] :=
    @StateMachine.IsParentChain.step exM "A" "root" [] (by decide) (by decide)
      (@StateMachine.IsParentChain.stop exM "root" none (by decide) (by decide))
  exact @lca_of_descendant exM "A" "B" ["root"] ["A", "root"] 5 hB (by decide) hA
    (by decide) (by decide)

open StateMachine in
/-- **C2**: for registered states `s1`, `s2` whose parent chains are acyclic
and reach a top-level state, `least_common_ancestor(s1, s2)` equals
`least_common_ancestor(s2, s1)`, even though the function scans `s1`'s chain
for the first entry present in `s2`'s chain. -/
theorem lca_symmetric {m : StateMachine} {s1 s2 : String} {l1 l2 : List String}
    {fuel : Nat} (h1 : IsParentChain m s1 l1) (h2 : IsParentChain m s2 l2)
    (hf1 : l1.length ≤ fuel) (hf2 : l2.length ≤ fuel) :
    least_common_ancestor m s1 s2 fuel = least_common_ancestor m s2 s1 fuel := by
  rw [least_common_ancestor_eq h1 h2 hf1 hf2, least_common_ancestor_eq h2 h1 hf2 hf1,
      find?_chain_symm h1 h2]

/-- Witness for `lca_symmetric` on `exM`. -/
theorem lca_symmetric_witness :
    StateMachine.least_common_ancestor exM "A" "B" 5 =
      StateMachine.least_common_ancestor exM "B" "A" 5 := by
  have hB : StateMachine.IsParentChain exM "B" ["A", "root"] :=
    @StateMachine.IsParentChain.step exM "B" "A" ["root"] (by decide) (by decide)
      (@StateMachine.IsParentChain.step exM "A" "root" [] (by decide) (by decide)
        (@StateMachine.IsParentChain.stop exM "root" none (by decide) (by decide)))
  have hA : StateMachine.IsParentChain exM "A" ["root"] :=
    @StateMachine.IsParentChain.step exM "A" "root" [] (by decide) (by decide)
      (@StateMachine.IsParentChain.stop exM "root" none (by decide) (by decide))
  exact @lca_symmetric exM "A" "B" ["root"] ["A", "root"] 5 hA hB (by decide) (by decide)

namespace StateMachine

theorem leafForAux_eq {m : StateMachine} {all : List String} {fuel : Nat} :
    ∀ {todo : List String}, (∀ s ∈ todo, (descendants_for m s fuel).isSome) →
      leafForAux m all fuel todo =
        some (todo.filter (fun s =>
          !((descendants_for m s fuel).getD []).any (fun d => d ∈ all))) := by
  intro todo
  induction todo with
  | nil => intro _; rfl
  | cons s rest ih =>
    intro hd
    obtain ⟨ds, hds⟩ := Option.isSome_iff_exists.1 (hd s (List.mem_cons_self s rest))
    have hrest := ih (fun x hx => hd x (List.mem_cons_of_mem s hx))
    simp only [leafForAux, hds, hrest, List.filter_cons, Option.getD_some]
    cases hany : ds.any (fun d => d ∈ all) with
    | true => simp [hany]
    | false => simp [hany]

theorem leaf_for_eq {m : StateMachine} {states : List String} {fuel : Nat}
    (hd : ∀ s ∈ states, (descendants_for m s fuel).isSome) :
    leaf_for m states fuel =
      some (states.filter (fun s =>
        !((descendants_for m s fuel).getD []).any (fun d => d ∈ states))) :=
  leafForAux_eq hd

theorem descendantsDefinedNoSelf_unpack {m : StateMachine} {states : List String}
    {fuel : Nat} (h : descendantsDefinedNoSelf m states fuel = true) :
    ∀ s ∈ states, ∃ ds, descendants_for m s fuel = some ds ∧ s ∉ ds := by
  rw [descendantsDefinedNoSelf, List.all_eq_true] at h
  intro s hs
  have hsi := h s hs
  cases hds : descendants_for m s fuel with
  | none => rw [hds] at hsi; simp at hsi
  | some ds =>
    rw [hds] at hsi
    simp at hsi
    exact ⟨ds, rfl, hsi⟩

end StateMachine

open StateMachine in
/-- **C5**: over a machine whose listed states have well-defined descendant
sets not containing themselves (the tree-shape hypothesis), `leaf_for`
returns exactly those input states that have no *other* input state among
their descendants, in input order — and `leaf_for` is idempotent. -/
theorem leaf_for_spec {m : StateMachine} {states : List String} {fuel : Nat}
    (hd : descendantsDefinedNoSelf m states fuel = true) :
    leaf_for m states fuel =
      some (states.filter (hasNoOtherInputDescendant m states fuel)) ∧
    ∀ l, leaf_for m states fuel = some l → leaf_for m l fuel = some l := by
  have hd' := descendantsDefinedNoSelf_unpack hd
  have hsome : ∀ s ∈ states, (descendants_for m s fuel).isSome := by
    intro s hs
    obtain ⟨ds, hds, _⟩ := hd' s hs
    rw [hds]
    rfl
  constructor
  · rw [leaf_for_eq hsome]
    congr 1
    apply List.filter_congr
    intro s hs
    obtain ⟨ds, hds, hns⟩ := hd' s hs
    rw [hasNoOtherInputDescendant, hds]
    simp only [Option.getD_some]
    rw [Bool.eq_iff_iff]
    simp only [Bool.not_eq_true', List.any_eq_false, List.all_eq_true]
    constructor
    · intro hall d hdm
      simp [hall d hdm]
    · intro hall d hdm
      rcases (by simpa using hall d hdm : d ∉ states ∨ d = s) with hns2 | rfl
      · simp [hns2]
      · exact absurd hdm hns
  · intro l hl
    rw [leaf_for_eq hsome] at hl
    injection hl with hl
    rw [← hl]
    have hsub : ∀ x ∈ states.filter (fun s =>
        !((descendants_for m s fuel).getD []).any (fun d => d ∈ states)), x ∈ states :=
      fun x hx => (List.mem_filter.1 hx).1
    rw [leaf_for_eq (fun s hs => hsome s (hsub s hs))]
    congr 1
    apply List.filter_eq_self.2
    intro s hs
    have hsf := List.mem_filter.1 hs
    obtain ⟨ds, hds, _⟩ := hd' s hsf.1
    have hcond := hsf.2
    rw [hds] at hcond ⊢
    simp only [Option.getD_some] at hcond ⊢
    simp only [Bool.not_eq_true', List.any_eq_false] at hcond ⊢
    intro d hdm hdf
    exact hcond d hdm (decide_eq_true (hsub d (of_decide_eq_true hdf)))

/-- Witness for `leaf_for_spec`: in `exM`, of the inputs `A` and `B` only the
deeper `B` survives, and re-applying `leaf_for` is stable. -/
theorem leaf_for_spec_witness :
    StateMachine.descendantsDefinedNoSelf exM ["A", "B"] 5 = true ∧
    StateMachine.leaf_for exM ["A", "B"] 5 = some ["B"] ∧
    StateMachine.leaf_for exM ["B"] 5 = some ["B"] := by
  have h := @leaf_for_spec exM ["A", "B"] 5 (by decide)
  exact ⟨by decide, h.1.trans (by decide), h.2 ["B"] (h.1.trans (by decide))⟩

namespace State

theorem add_transition_transitions? {st st' : State} {t : Transition}
    (h : st.add_transition t = some st') :
    ∃ ts, st.transitions? = some ts ∧ st'.transitions? = some (ts ++ [t]) := by
  cases st with
  | basic n ts en ex =>
    injection h with h
    rw [← h]
    exact ⟨ts, rfl, rfl⟩
  | compound n i ts en ex cs =>
    injection h with h
    rw [← h]
    exact ⟨ts, rfl, rfl⟩
  | orthogonal n ts en ex cs =>
    injection h with h
    rw [← h]
    exact ⟨ts, rfl, rfl⟩
  | history n mem i d => exact Option.noConfusion h
  | final n en ex => exact Option.noConfusion h

end State

open StateMachine in
/-- **C6** counterexample: registering a second state named `A` raises no
error — `register_state` reports success, the `states` entry is silently
overwritten, and the machine has changed. -/
theorem register_state_dup_cex :
    (mDup.register_state aBasic2 none).2 = none ∧
    dictGet? "A" (mDup.register_state aBasic2 none).1.states = some aBasic2 ∧
    (mDup.register_state aBasic2 none).1 ≠ mDup := by
  exact ⟨by decide, by decide, by decide⟩

open StateMachine in
/-- **C6 (amended)**: `register_state` performs no duplicate-name check:
registering a name already present in `states` raises no duplicate error and
silently overwrites the `states` entry with the new state, rebinding its
`parent` entry (stated for a parent other than the state's own name). -/
theorem register_state_overwrites {m : StateMachine} {st : State} {p : Option String}
    (hdup : (dictGet? st.name m.states).isSome = true) (hp : p ≠ some st.name) :
    dictGet? st.name (m.register_state st p).1.states = some st ∧
    dictGet? st.name (m.register_state st p).1.parent = some p := by
  cases p with
  | none =>
    exact ⟨dictGet?_insert_self _ _ _, dictGet?_insert_self _ _ _⟩
  | some q =>
    have hq : q ≠ st.name := fun he => hp (by rw [he])
    simp only [register_state]
    cases hgq : dictGet? q (dictInsert st.name st m.states) with
    | none =>
      dsimp only
      exact ⟨dictGet?_insert_self _ _ _, dictGet?_insert_self _ _ _⟩
    | some ps =>
      cases hac : ps.add_child st.name with
      | none =>
        dsimp only
        rw [hac]
        exact ⟨dictGet?_insert_self _ _ _, dictGet?_insert_self _ _ _⟩
      | some ps' =>
        dsimp only
        rw [hac]
        refine ⟨?_, dictGet?_insert_self _ _ _⟩
        rw [dictGet?_insert_ne _ _ hq]
        exact dictGet?_insert_self _ _ _

/-- Witness for `register_state_overwrites` at the concrete duplicate
registration of `A`. -/
theorem register_state_overwrites_witness :
    dictGet? "A" (mDup.register_state aBasic2 none).1.states = some aBasic2 ∧
    dictGet? "A" (mDup.register_state aBasic2 none).1.parent = some none :=
  @register_state_overwrites mDup aBasic2 none (by decide) (by decide)

open StateMachine in
/-- **C7** counterexample: registering `B` under the *registered but
non-composite* parent `A` does not append `B` to the machine's top-level
children — the call fails with an `AttributeError` (`add_child` does not
exist on a Basic state) and the top-level children list is unchanged. -/
theorem register_state_noncomposite_parent_cex :
    dictGet? "A" mDup.states = some aBasic ∧
    (mDup.register_state bBasic (some "A")).2 = some RegError.attributeError ∧
    (mDup.register_state bBasic (some "A")).1.children = ["A"] ∧
    ("B" : String) ∉ (mDup.register_state bBasic (some "A")).1.children := by
  exact ⟨by decide, by decide, by decide, by decide⟩

open StateMachine in
/-- **C7 (amended)**: for a fresh state name (and a parent reference other
than the state's own name), `register_state` always records the `states` and
`parent` entries; it then appends the name to the machine's top-level
children when the parent is absent or unregistered, appends it to the
parent's child list when the parent is registered and composite, and fails
with an `AttributeError` — touching no child list — when the parent is
registered but not composite. -/
theorem register_state_fresh_spec {m : StateMachine} {st : State} {p : Option String}
    (hfresh : dictGet? st.name m.states = none) (hp : p ≠ some st.name) :
    dictGet? st.name (m.register_state st p).1.states = some st ∧
    dictGet? st.name (m.register_state st p).1.parent = some p ∧
    (p = none → (m.register_state st p).1.children = m.children ++ [st.name] ∧
      (m.register_state st p).2 = none) ∧
    (∀ q, p = some q → dictGet? q m.states = none →
      (m.register_state st p).1.children = m.children ++ [st.name] ∧
      (m.register_state st p).2 = none) ∧
    (∀ q ps ps', p = some q → dictGet? q m.states = some ps →
      ps.add_child st.name = some ps' →
      dictGet? q (m.register_state st p).1.states = some ps' ∧
      (m.register_state st p).1.children = m.children ∧
      (m.register_state st p).2 = none) ∧
    (∀ q ps, p = some q → dictGet? q m.states = some ps →
      ps.add_child st.name = none →
      (m.register_state st p).1.children = m.children ∧
      (m.register_state st p).2 = some RegError.attributeError) := by
  cases p with
  | none =>
    refine ⟨dictGet?_insert_self _ _ _, dictGet?_insert_self _ _ _,
      fun _ => ⟨rfl, rfl⟩, ?_, ?_, ?_⟩
    · intro q hq
      exact Option.noConfusion hq
    · intro q ps ps' hq
      exact Option.noConfusion hq
    · intro q ps hq
      exact Option.noConfusion hq
  | some q =>
    have hq : q ≠ st.name := fun he => hp (by rw [he])
    have hlk : dictGet? q (dictInsert st.name st m.states) = dictGet? q m.states :=
      dictGet?_insert_ne _ _ (Ne.symm hq)
    simp only [register_state, hlk]
    cases hgq : dictGet? q m.states with
    | none =>
      dsimp only
      refine ⟨dictGet?_insert_self _ _ _, dictGet?_insert_self _ _ _, ?_, ?_, ?_, ?_⟩
      · intro h
        exact Option.noConfusion h
      · intro q' hq' _
        exact ⟨rfl, rfl⟩
      · intro q' ps ps' hq' hget _
        injection hq' with he
        rw [← he, hgq] at hget
        exact Option.noConfusion hget
      · intro q' ps hq' hget _
        injection hq' with he
        rw [← he, hgq] at hget
        exact Option.noConfusion hget
    | some ps =>
      cases hac : ps.add_child st.name with
      | some ps' =>
        dsimp only
        rw [hac]
        dsimp only
        refine ⟨?_, dictGet?_insert_self _ _ _, ?_, ?_, ?_, ?_⟩
        · rw [dictGet?_insert_ne _ _ hq]
          exact dictGet?_insert_self _ _ _
        · intro h
          exact Option.noConfusion h
        · intro q' hq' hget
          injection hq' with he
          rw [← he, hgq] at hget
          exact Option.noConfusion hget
        · intro q' ps2 ps2' hq' hget hac'
          injection hq' with he
          rw [← he, hgq] at hget
          injection hget with he2
          rw [← he2, hac] at hac'
          injection hac' with he3
          rw [← he, ← he3]
          exact ⟨dictGet?_insert_self _ _ _, rfl, rfl⟩
        · intro q' ps2 hq' hget hac'
          injection hq' with he
          rw [← he, hgq] at hget
          injection hget with he2
          rw [← he2, hac] at hac'
          exact Option.noConfusion hac'
      | none =>
        dsimp only
        rw [hac]
        dsimp only
        refine ⟨dictGet?_insert_self _ _ _, dictGet?_insert_self _ _ _, ?_, ?_, ?_, ?_⟩
        · intro h
          exact Option.noConfusion h
        · intro q' hq' hget
          injection hq' with he
          rw [← he, hgq] at hget
          exact Option.noConfusion hget
        · intro q' ps2 ps2' hq' hget hac'
          injection hq' with he
          rw [← he, hgq] at hget
          injection hget with he2
          rw [← he2, hac] at hac'
          exact Option.noConfusion hac'
        · intro q' ps2 hq' hget hac'
          exact ⟨rfl, rfl⟩

/-- Witness for `register_state_fresh_spec`: registering fresh `C` under the
registered composite `A` of `exM` stores `C` and extends `A`'s child list. -/
theorem register_state_fresh_spec_witness :
    dictGet? "C" (exM.register_state cBasic (some "A")).1.states = some cBasic ∧
    dictGet? "A" (exM.register_state cBasic (some "A")).1.states =
      some (State.compound "A" "B" [] none none ["B", "C"]) ∧
    (exM.register_state cBasic (some "A")).2 = none := by
  have h := @register_state_fresh_spec exM cBasic (some "A") (by decide) (by decide)
  have h5 := h.2.2.2.2.1 "A" (State.compound "A" "B" [] none none ["B"])
    (State.compound "A" "B" [] none none ["B", "C"]) rfl (by decide) (by decide)
  exact ⟨h.1, h5.1, h5.2.2⟩

open StateMachine in
/-- **C8**: `register_transition` fails with a `KeyError` (the spec's
`UnknownStateError`) exactly when `from_state` is not a registered state; on
success the transition has been appended both to the machine's transition
list and to the source state's outgoing-transition list. -/
theorem register_transition_spec {m : StateMachine} {t : Transition} :
    ((m.register_transition t).2 = some RegError.keyError ↔
      dictGet? t.from_state m.states = none) ∧
    ((m.register_transition t).2 = none →
      (m.register_transition t).1.transitions = m.transitions ++ [t] ∧
      ∃ st st' ts, dictGet? t.from_state m.states = some st ∧
        st.add_transition t = some st' ∧ st.transitions? = some ts ∧
        st'.transitions? = some (ts ++ [t]) ∧
        dictGet? t.from_state (m.register_transition t).1.states = some st') := by
  simp only [register_transition]
  cases hget : dictGet? t.from_state m.states with
  | none =>
    dsimp only
    refine ⟨by simp, ?_⟩
    intro h
    exact Option.noConfusion h
  | some st =>
    cases hat : st.add_transition t with
    | some st' =>
      dsimp only
      rw [hat]
      dsimp only
      refine ⟨by simp, ?_⟩
      intro _
      obtain ⟨ts, hts, hts'⟩ := State.add_transition_transitions? hat
      exact ⟨rfl, st, st', ts, rfl, hat, hts, hts', dictGet?_insert_self _ _ _⟩
    | none =>
      dsimp only
      rw [hat]
      dsimp only
      refine ⟨by simp, ?_⟩
      intro h
      exact Option.noConfusion h

/-- Witness for `register_transition_spec`: registering `A → B` on `mDup`
succeeds and appends the transition everywhere. -/
theorem register_transition_spec_witness :
    (mDup.register_transition tAB).1.transitions = mDup.transitions ++ [tAB] ∧
    ((mDup.register_transition tAB).2 = some RegError.keyError ↔
      dictGet? "A" mDup.states = none) := by
  have h := @register_transition_spec mDup tAB
  exact ⟨(h.2 (by decide)).1, h.1⟩

open StateMachine in
/-- **C10**: when `register_transition` fails because `from_state` is
unregistered, the transition has nonetheless already been appended to the
machine's `transitions` list — the failure is not atomic. -/
theorem register_transition_not_atomic {m : StateMachine} {t : Transition}
    (h : dictGet? t.from_state m.states = none) :
    m.register_transition t =
      ({ m with transitions := m.transitions ++ [t] }, some RegError.keyError) := by
  simp only [register_transition]
  rw [h]

/-- Witness for `register_transition_not_atomic`: registering a transition
from the unregistered `Z` fails with a `KeyError`, yet the transition sits in
the machine's list. -/
theorem register_transition_not_atomic_witness :
    (mDup.register_transition tZ).1.transitions = [tZ] ∧
    (mDup.register_transition tZ).2 = some RegError.keyError := by
  have h := @register_transition_not_atomic mDup tZ (by decide)
  rw [h]
  exact ⟨rfl, rfl⟩

namespace StateMachine

theorem checkState_eq_c4 {m : StateMachine} {n : String} {st : State}
    (hh : checkHistoryPart m n st = none)
    (hc : checkCompositePart n st = none)
    (hpre : match st.compoundInitial? with
            | some ini => (dictGet? n m.parent).isSome ∧ (dictGet? ini m.parent).isSome
            | none => True)
    (hcons : match st.compoundInitial?, st.children? with
             | some ini, some cs => (dictGet? ini m.parent = some (some n) ↔ ini ∈ cs)
             | _, _ => True) :
    checkState m n st = if c4pred m (n, st) then some (.invalidInitial n) else none := by
  cases st with
  | compound n0 i ts en ex cs =>
    simp only [checkState, hh, hc, checkCompoundPart, c4pred, State.compoundInitial?,
      State.children?]
    simp only [State.compoundInitial?] at hpre
    simp only [State.compoundInitial?, State.children?] at hcons
    obtain ⟨pv, hpv⟩ := Option.isSome_iff_exists.1 hpre.1
    obtain ⟨ip, hip⟩ := Option.isSome_iff_exists.1 hpre.2
    rw [hip] at hcons
    simp only [checkCompoundInitial, hpv, hip, truthyParentEntry]
    cases htr : truthy pv with
    | false => simp [htr]
    | true =>
      simp only [htr, if_true, Bool.true_and]
      by_cases hin : i ∈ cs
      · have hipn : ip = some n := by
          injection hcons.2 hin with he
        simp [hipn, hin]
      · have hipn : ip ≠ some n := fun he => hin (hcons.1 (by rw [he]))
        simp [hipn, hin]
  | basic n0 ts en ex =>
    simp [checkState, hh, hc, checkCompoundPart, c4pred, State.compoundInitial?]
  | orthogonal n0 ts en ex cs =>
    simp [checkState, hh, hc, checkCompoundPart, c4pred, State.compoundInitial?]
  | history n0 mem i d =>
    simp [checkState, hh, hc, checkCompoundPart, c4pred, State.compoundInitial?]
  | final n0 en ex =>
    simp [checkState, hh, hc, checkCompoundPart, c4pred, State.compoundInitial?]

theorem firstErr_c4 {m : StateMachine} : ∀ {l : List (String × State)},
    (∀ p ∈ l, checkState m p.1 p.2 = if c4pred m p then some (.invalidInitial p.1) else none) →
    firstErr (fun p => checkState m p.1 p.2) l =
      (l.find? (c4pred m)).map (fun p => VError.invalidInitial p.1) := by
  intro l
  induction l with
  | nil => intro _; rfl
  | cons p rest ih =>
    intro h
    have hp := h p (List.mem_cons_self p rest)
    have hrest := ih (fun x hx => h x (List.mem_cons_of_mem p hx))
    cases hc4 : c4pred m p with
    | true =>
      rw [List.find?_cons_of_pos rest hc4]
      simp only [firstErr, hp, hc4, if_true]
      rfl
    | false =>
      rw [List.find?_cons_of_neg rest (by simp [hc4])]
      simp only [firstErr, hp, hc4, if_false]
      exact hrest

end StateMachine

open StateMachine in
/-- **C9** counterexample: in `mC9` — a machine reached through
`register_state` alone — the compound state `X` has `initial = "c"` and
`"c"` *is* one of `X`'s direct children, and no compound state with a parent
has an initial outside its own children (`c4Violation mC9 = false`); yet
`valid` raises the invalid-initial-state error for `X`, because the code
compares `parent[initial]` (here `"root"`, after `c` was re-registered) with
the state's name instead of testing child membership. -/
theorem valid_c4_cex :
    StateMachine.valid mC9 = Except.error (VError.invalidInitial "X") ∧
    StateMachine.c4Violation mC9 = false ∧
    dictGet? "X" mC9.states = some (State.compound "X" "c" [] none none ["c"]) ∧
    dictGet? "c" mC9.parent = some (some "root") := by
  refine ⟨rfl, by decide, by decide, by decide⟩

open StateMachine in
/-- **C9 (amended)**: when all other validation checks pass (C1/C6 on
transitions, C2/C3 history checks, C5 composite checks), every compound
state's and compound initial's `parent` entry is present, and the
parent/children backlink invariant holds at each compound's `initial`,
`valid` raises the invalid-initial-state error exactly when some Compound
state with a truthy parent entry has an `initial` that is not one of its own
direct children; a root-level compound (falsy parent entry) is exempt. -/
theorem valid_c4_iff {m : StateMachine}
    (h1 : transitionsAllPass m = true) (h2 : historyChecksAllPass m = true)
    (h3 : compositeChecksAllPass m = true) (h4 : compoundEntriesPresent m = true)
    (h5 : consistentInitialBacklinks m = true) :
    raisesInvalidInitial (valid m) = c4Violation m := by
  have hT : firstErr (checkTransition m) m.transitions = none := by
    rw [firstErr_eq_none]
    intro t ht
    exact Option.isNone_iff_eq_none.1 (List.all_eq_true.1 h1 t ht)
  have hS : ∀ p ∈ m.states, checkState m p.1 p.2 =
      if c4pred m p then some (.invalidInitial p.1) else none := by
    intro p hp
    apply checkState_eq_c4
    · exact Option.isNone_iff_eq_none.1 (List.all_eq_true.1 h2 p hp)
    · exact Option.isNone_iff_eq_none.1 (List.all_eq_true.1 h3 p hp)
    · have h4p := List.all_eq_true.1 h4 p hp
      cases hci : p.2.compoundInitial? with
      | none => simp [hci]
      | some ini =>
        rw [hci] at h4p
        simp only [Bool.and_eq_true] at h4p
        simp [hci, h4p.1, h4p.2]
    · have h5p := List.all_eq_true.1 h5 p hp
      cases hci : p.2.compoundInitial? with
      | none => simp [hci]
      | some ini =>
        cases hch : p.2.children? with
        | none => simp [hci, hch]
        | some cs =>
          rw [hci, hch] at h5p
          simp only [hci, hch]
          exact decide_eq_decide.1 (beq_iff_eq.1 h5p)
  rw [valid, hT]
  rw [firstErr_c4 hS]
  cases hfind : m.states.find? (c4pred m) with
  | none =>
    have hany : m.states.any (c4pred m) = false := by
      rw [List.any_eq_false]
      intro x hx
      exact List.find?_eq_none.1 hfind x hx
    simp [raisesInvalidInitial, c4Violation, hany]
  | some p =>
    have hany : m.states.any (c4pred m) = true :=
      List.any_eq_true.2 ⟨p, List.mem_of_find?_eq_some hfind, List.find?_some hfind⟩
    simp [raisesInvalidInitial, c4Violation, hany]

/-- Witness for `valid_c4_iff`: the consistent machine `mW` violates the
child-membership condition at `B`, and `valid` raises the
invalid-initial-state error. -/
theorem valid_c4_iff_witness :
    StateMachine.raisesInvalidInitial (StateMachine.valid mW) = true := by
  rw [valid_c4_iff (by decide) (by decide) (by decide) (by decide) (by decide)]
  decide
